import Mathlib

/-!
Verification of the group-wise statistical feature-ranking pipeline
(`ehrapy/tools/_utils.py`) and the free-text annotation aggregation
pipeline (`ehrapy/tools/nlp/_medcat.py`) of the ehrapy repository.

Python values are embedded as follows: observation labels and group
names are `String`s, numeric values (scores, p-values) are `ℚ`,
numpy record arrays are association lists from column name to column
(`List (String × List α)`), pandas data frames of per-entity records
are `List` of a record structure, and Python exceptions are modelled
with `Except`.
-/

namespace Ehrapy

/-- A group identifier as passed from Python: either a string or an int
(`_get_groups_order` accepts both and coerces ints to their string form). -/
inductive GId where
  | str (s : String)
  | int (n : Int)
deriving DecidableEq, Repr

/-- Python `str(x)` on a group identifier. -/
def GId.toStr : GId → String
  | .str s => s
  | .int n => toString n

/-- Python `isinstance(x, int)` on a group identifier. -/
def GId.isInt : GId → Bool
  | .int _ => true
  | .str _ => false

/-- The `groups` parameter of `rank_features_groups`: a bare string
(the sentinel `"all"` or an invalid scalar), a bare int (invalid scalar),
or a sequence of group identifiers. -/
inductive GroupsParam where
  | str (s : String)
  | int (n : Int)
  | seq (l : List GId)
deriving DecidableEq, Repr

/-- Embedding of `_get_groups_order` (src/ehrapy/tools/_utils.py).
Mirrors the source line by line: the `"all"` sentinel returns the known
group names; a bare scalar raises `ValueError("Specify a sequence of groups")`;
an explicit sequence is coerced to strings when its first element is an int
(indexing an empty sequence raises `IndexError`), and the reference is
appended when it is not `"rest"` and not already present; finally the
reference must be `"rest"` or one of the known group names. -/
def _get_groups_order (groups_subset : GroupsParam) (group_names : List String)
    (reference : String) : Except String (List GId) :=
  let check : List GId → Except String (List GId) := fun groups_order =>
    if reference ≠ "rest" ∧ reference ∉ group_names then
      Except.error ("ValueError: reference = " ++ reference ++
        " needs to be one of groupby = " ++ String.intercalate ", " group_names)
    else
      Except.ok groups_order
  match groups_subset with
  | .str s =>
    if s = "all" then check (group_names.map GId.str)
    else Except.error "ValueError: Specify a sequence of groups"
  | .int _ => Except.error "ValueError: Specify a sequence of groups"
  | .seq [] => Except.error "IndexError: list index out of range"
  | .seq (h :: t) =>
    let go := if h.isInt then (h :: t).map (fun g => GId.str g.toStr) else h :: t
    if reference ≠ "rest" ∧ GId.str reference ∉ go then
      check (go ++ [GId.str reference])
    else
      check go

/-- A numpy structured/record array: an ordered association of column
name (numpy field name, here a group name) to column values. -/
abbrev RecArray (α : Type) := List (String × List α)

/-- Column of a record array selected by name (`recarray[group]` /
`df[group]`); empty when the name is absent. -/
def lookupCol (t : RecArray α) (g : String) : List α :=
  match t.find? (fun p => p.1 = g) with
  | some p => p.2
  | none => []

/-- Column `j` of a row-major plain 2-D array (`array[:, j]`). -/
def arrayCol [Inhabited α] (array : List (List α)) (j : Nat) : List α :=
  array.map (fun row => row.getD j default)

/-- Helper of `_merge_arrays`: walks `groups_order` with a running column
index `j`, pairing the existing record array's column named `g` (in
`groups_order`'s order, as `df[list(groups_order)]` does) with column `j`
of the new plain array (as `pd.DataFrame(array, columns=groups_order)`
labels columns positionally), row-concatenated. -/
def mergeArraysAux [Inhabited α] (recarray : RecArray α)
    (array : List (List α)) : Nat → List String → RecArray α
  | _, [] => []
  | j, g :: gs =>
    (g, lookupCol recarray g ++ arrayCol array j)
      :: mergeArraysAux recarray array (j + 1) gs

/-- Embedding of `_merge_arrays` (src/ehrapy/tools/_utils.py): the existing
record array's columns are reordered by name to `groups_order`
(`df[list(groups_order)]`; pandas raises `KeyError` when a requested column
is missing), then row-concatenated with the new plain array whose columns
are labelled positionally by `groups_order`. -/
def _merge_arrays [Inhabited α] (recarray : RecArray α) (array : List (List α))
    (groups_order : List String) : Except String (RecArray α) :=
  if groups_order.all (fun g => (recarray.find? (fun p => p.1 = g)).isSome) then
    Except.ok (mergeArraysAux recarray array 0 groups_order)
  else
    Except.error "KeyError"

/-- Helper: a caller-built structured array whose fields are the saving
call's `groups_order` and whose rows are `v` (column `j` of `v` is the
values of group `groups_order[j]`). -/
def mkRecArrayAux [Inhabited α] (v : List (List α)) :
    Nat → List String → RecArray α
  | _, [] => []
  | j, g :: gs => (g, arrayCol v j) :: mkRecArrayAux v (j + 1) gs

/-- A structured array labelled by `groups_order`, columns positional. -/
def mkRecArray [Inhabited α] (groups_order : List String)
    (v : List (List α)) : RecArray α :=
  mkRecArrayAux v 0 groups_order

/-- Embedding of one field's update in `_save_rank_features_result`
(src/ehrapy/tools/_utils.py): a `None` or empty `values` is skipped; on
first write the values are stored as-is (a structured array keyed by the
call's group order); on later writes the stored array is merged with the
new values through `_merge_arrays`. -/
def saveField [Inhabited α] (prior : Option (RecArray α))
    (values : Option (List (List α))) (groups_order : List String) :
    Except String (Option (RecArray α)) :=
  match values with
  | none => Except.ok prior
  | some v =>
    if v.length = 0 then Except.ok prior
    else
      match prior with
      | none => Except.ok (some (mkRecArray groups_order v))
      | some stored => (_merge_arrays stored v groups_order).map some

/-- `method_map` of `_adjust_pvalues` (src/ehrapy/tools/_utils.py): a
Python dict lookup; a key outside the map raises `KeyError`. -/
def method_map : String → Option String
  | "benjamini-hochberg" => some "fdr_bh"
  | "bonferroni" => some "bonferroni"
  | _ => none

/-- Modelled from the spec: the external `statsmodels.stats.multitest.multipletests`
primitive consumed by `_adjust_pvalues` ("an external multiple-testing-correction
primitive given a p-value array and method name").  For method `"bonferroni"` it
performs the standard Bonferroni correction: each p-value is multiplied by the
number of tests in the family (the column length) and clipped at 1.  Other
methods are not exercised by any claim here and pass the array through. -/
def multipletests (group_pvals : List ℚ) (method : String) : List ℚ :=
  if method = "bonferroni" then
    group_pvals.map (fun p => min (p * (group_pvals.length : ℚ)) 1)
  else
    group_pvals

/-- `recarray[g] = newCol`: replace every column named `g`. -/
def updateCol (t : RecArray α) (g : String) (newCol : List α) : RecArray α :=
  t.map (fun p => if p.1 = g then (p.1, newCol) else p)

/-- `np.ones_like(pvals)`: a fresh array of the same shape and field
names, filled with ones. -/
def onesLike (pvals : RecArray ℚ) : RecArray ℚ :=
  pvals.map (fun p => (p.1, p.2.map (fun _ => (1 : ℚ))))

/-- The state of `_adjust_pvalues`: the caller's input array `pvals` and
the freshly allocated output array `pvals_adj`, kept as separate
components so that which array each write targets is explicit. -/
structure PvState where
  pvals : RecArray ℚ
  pvals_adj : RecArray ℚ
deriving DecidableEq

/-- One loop iteration of `_adjust_pvalues` for the field `group`:
`group_pvals = pvals[group]` reads the input array, the corrected column
comes from the external primitive, and the single write targets the
output array (`pvals_adj[group] = group_pvals_adj`). -/
def adjustStep (mt : List ℚ → String → List ℚ) (mapped_method : String)
    (s : PvState) (group : String) : PvState :=
  let group_pvals := lookupCol s.pvals group
  let group_pvals_adj := mt group_pvals mapped_method
  { s with pvals_adj := updateCol s.pvals_adj group group_pvals_adj }

/-- Embedding of `_adjust_pvalues` (src/ehrapy/tools/_utils.py) with the
two arrays as explicit state, parametrized by the external `multipletests`
primitive `mt`.  `pvals_adj` starts as `np.ones_like(pvals)`; the loop runs
over the record array's field names in order; `method_map[corr_method]` is
evaluated inside the loop body, so an unrecognized method raises `KeyError`
at the first field. -/
def adjustPvaluesState (mt : List ℚ → String → List ℚ) (pvals : RecArray ℚ)
    (corr_method : String) : Except String PvState :=
  (pvals.map Prod.fst).foldlM
    (fun s group =>
      match method_map corr_method with
      | none => Except.error "KeyError"
      | some m => Except.ok (adjustStep mt m s group))
    ⟨pvals, onesLike pvals⟩

/-- Embedding of `_adjust_pvalues`: the corrected array it returns. -/
def _adjust_pvalues (mt : List ℚ → String → List ℚ) (pvals : RecArray ℚ)
    (corr_method : String) : Except String (RecArray ℚ) :=
  (adjustPvaluesState mt pvals corr_method).map PvState.pvals_adj

/-- Insertion of index `i` into an index list kept ordered by the values
of `v`; part of the model of `np.argsort`. -/
def insertIdx (v : List ℚ) (i : Nat) : List Nat → List Nat
  | [] => [i]
  | j :: rest =>
    if v.getD i 0 ≤ v.getD j 0 then i :: j :: rest
    else j :: insertIdx v i rest

/-- Model of `np.argsort v`: the indices `0, ..., v.length - 1` ordered so
that the corresponding values of `v` are non-decreasing. -/
def argsort (v : List ℚ) : List Nat :=
  (List.range v.length).foldr (fun i acc => insertIdx v i acc) []

/-- Fancy indexing `col[sorted_indexes]`. -/
def applyPerm [Inhabited α] (idx : List Nat) (col : List α) : List α :=
  idx.map (fun i => col.getD i default)

/-- Field of the per-key results dict `adata.uns[key_added]`
(`adata.uns[key_added][key]`), `none` when the key is absent. -/
def lookupField (store : List (String × RecArray ℚ)) (key : String) :
    Option (RecArray ℚ) :=
  (store.find? (fun p => p.1 = key)).map Prod.snd

/-- The per-group body of `_sort_features`: read the (current, since the
Python variable aliases the live array) adjusted-p-value column of this
group, compute its ascending order, and reorder that group's column of
every stored field by it, skipping the `"params"` field. -/
def sortStep (store : List (String × RecArray ℚ)) (group : String) :
    List (String × RecArray ℚ) :=
  let pvals_adj := (lookupField store "pvals_adj").getD []
  let sorted_indexes := argsort (lookupCol pvals_adj group)
  store.map (fun kt =>
    if kt.1 = "params" then kt
    else (kt.1,
      updateCol kt.2 group (applyPerm sorted_indexes (lookupCol kt.2 group))))

/-- Embedding of `_sort_features` (src/ehrapy/tools/_utils.py) at the level
of one stored key's dict of field name → record array (the enclosing
`if key_added not in adata.uns: return` no-op guard is outside this level).
Reading `pvals_adj` raises `KeyError` when the field is absent; then the
loop runs over the field names of `pvals_adj` in order, each iteration
sorting every non-`"params"` field's column for that group by the group's
adjusted p-values. -/
def _sort_features (store : List (String × RecArray ℚ)) :
    Except String (List (String × RecArray ℚ)) :=
  match lookupField store "pvals_adj" with
  | none => Except.error "KeyError"
  | some pvals_adj =>
    Except.ok ((pvals_adj.map Prod.fst).foldl sortStep store)

/-- The observation data consumed by `_evaluate_categorical_features`:
the observation metadata columns (`adata.obs`), the recorded list of
non-numerical feature names (`adata.uns["non_numerical_columns"]`), and
the feature matrix sliced by feature name
(`adata[:, feature].X.flatten()`), as parallel per-observation lists. -/
structure AData where
  obs : String → List String
  non_numerical_columns : List String
  X : String → List String

/-- `tests_to_lambdas` of `_evaluate_categorical_features`: the
power-divergence `lambda_` for each categorical test name; an unknown
name raises `KeyError`. -/
def tests_to_lambdas : String → Option ℚ
  | "chi-square" => some 1
  | "g-test" => some 0
  | "freeman-tukey" => some (-1 / 2)
  | "mod-log-likelihood" => some (-1)
  | "neyman" => some (-2)
  | "cressie-read" => some (2 / 3)
  | _ => none

/-- The `reference == "rest"` branch for one group: the boolean reference
mask over all observations
(`(groups_values != group) & np.isin(groups_values, groups_order)`)
zipped with the feature values; these pairs are the observations counted
by `pd.crosstab(feature_values, reference_mask)`. -/
def restCrosstabPairs (feature_values groups_values : List String)
    (group : String) (groups_order : List GId) : List (String × Bool) :=
  feature_values.zip (groups_values.map
    (fun gv => decide (gv ≠ group) && decide (GId.str gv ∈ groups_order)))

/-- The fixed-reference branch for one group: keep only observations in
`{group, reference}` (`np.isin(groups_values, [group, reference])`), then
mask the kept observations by `== reference` and zip with the kept
feature values; these pairs are the observations counted by
`pd.crosstab(feature_values[obs_to_take], reference_mask)`. -/
def refCrosstabPairs (feature_values groups_values : List String)
    (group reference : String) : List (String × Bool) :=
  ((feature_values.zip groups_values).filter
    (fun p => decide (p.2 = group) || decide (p.2 = reference))).map
    (fun p => (p.1, decide (p.2 = reference)))

/-- One cell of `pd.crosstab` over the branch's observation pairs: how
many observations carry feature value `v` on partition side `b`. -/
def crosstabCount (pairs : List (String × Bool)) (v : String) (b : Bool) :
    Nat :=
  (pairs.filter (fun p => decide (p.1 = v) && (p.2 == b))).length

/-- The contingency observations `_evaluate_categorical_features` builds
for one (feature, group) pair: the `"rest"` branch or the fixed-reference
branch. -/
def groupCrosstabPairs (feature_values groups_values : List String)
    (reference group : String) (groups_order : List GId) :
    List (String × Bool) :=
  if reference = "rest" then
    restCrosstabPairs feature_values groups_values group groups_order
  else
    refCrosstabPairs feature_values groups_values group reference

/-- The (statistic, p-value) pair the source computes for one
(feature, group) pair, with the external test primitive abstract. -/
def perGroupStat (chi2_contingency : ℚ → List (String × Bool) → ℚ × ℚ)
    (lambda_ : ℚ) (feature_values groups_values : List String)
    (reference : String) (groups_order : List GId) (group : String) :
    ℚ × ℚ :=
  chi2_contingency lambda_
    (groupCrosstabPairs feature_values groups_values reference group
      groups_order)

/-- The features `_evaluate_categorical_features` iterates over: the
non-numerical columns minus the grouping feature itself, matched under
the `"ehrapycat_"` prefix scheme
(`if feature == groupby or "ehrapycat_" + feature == groupby or feature ==
"ehrapycat_" + groupby: continue`). -/
def keptFeatures (adata : AData) (groupby : String) : List String :=
  adata.non_numerical_columns.filter (fun feature =>
    !(feature == groupby || ("ehrapycat_" ++ feature) == groupby ||
      feature == ("ehrapycat_" ++ groupby)))

/-- The groups the source's inner loop actually tests, in iteration
order: `for group in group_names: if group not in groups_order: continue`. -/
def testedGroups (group_names : List String) (groups_order : List GId) :
    List String :=
  group_names.filter (fun g => decide (GId.str g ∈ groups_order))

/-- The five parallel output arrays of `_evaluate_categorical_features`,
one row per kept categorical feature. -/
structure CatEvalResult where
  names : List (List String)
  scores : List (List ℚ)
  pvals : List (List ℚ)
  logfoldchanges : List (List ℚ)
  pts : List (List ℚ)
deriving DecidableEq

/-- Embedding of `_evaluate_categorical_features`
(src/ehrapy/tools/_utils.py), parametrized by the external
`scipy.stats.chi2_contingency` primitive (given the power-divergence
`lambda_` and the contingency observations, it returns the statistic and
the p-value).  Faithful points mirrored from the source: the group loop
runs over `group_names` **skipping** groups outside `groups_order`
(`for group in group_names: if group not in groups_order: continue`); the
`names` rows are `[feature] * len(group_names)` and the `logfoldchanges` /
`pts` rows are `np.ones(len(group_names))`, while `scores` and `pvals`
rows get one entry per tested group; `pts` rows are only collected when
the `pts` flag is true; the `tests_to_lambdas` lookup happens at the first
statistic computation. -/
def _evaluate_categorical_features
    (chi2_contingency : ℚ → List (String × Bool) → ℚ × ℚ)
    (adata : AData) (groupby : String) (group_names : List String)
    (groups : GroupsParam) (reference : String)
    (categorical_method : String) (pts : Bool) :
    Except String CatEvalResult :=
  match _get_groups_order groups group_names reference with
  | .error e => .error e
  | .ok groups_order =>
    let groups_values := adata.obs groupby
    let features := keptFeatures adata groupby
    match features.mapM (fun feature =>
      match (testedGroups group_names groups_order).mapM (fun group =>
        (match tests_to_lambdas categorical_method with
        | none => Except.error "KeyError"
        | some lambda_ =>
          Except.ok (perGroupStat chi2_contingency lambda_ (adata.X feature)
            groups_values reference groups_order group)
          : Except String (ℚ × ℚ))) with
      | .error e => Except.error e
      | .ok tested =>
        (Except.ok (feature, tested)
          : Except String (String × List (ℚ × ℚ)))) with
    | .error e => .error e
    | .ok rows =>
      Except.ok
        { names := rows.map (fun r => List.replicate group_names.length r.1)
          scores := rows.map (fun r => r.2.map Prod.fst)
          pvals := rows.map (fun r => r.2.map Prod.snd)
          logfoldchanges :=
            rows.map (fun _ => List.replicate group_names.length (1 : ℚ))
          pts :=
            if pts then
              rows.map (fun _ => List.replicate group_names.length (1 : ℚ))
            else [] }

/-- One flattened (row, entity) record of the annotation pipeline
(the rows `_flatten_annotated_results` produces): row number, pretty
name, concept unique identifier, type ids, types, and the nested
`meta_anns` `"Status"` value. -/
structure FlatEntity where
  row_nr : Nat
  pretty_name : String
  cui : String
  type_ids : List String
  types : List String
  meta_anns : String
deriving DecidableEq

/-- `DataFrame.drop_duplicates(subset=["cui", "row_nr", "meta_anns"])`:
the frame pandas would return, keeping the first row of each distinct
(cui, row_nr, meta_anns) triple. -/
def dropDuplicatesCuiRowStatus (l : List FlatEntity) : List FlatEntity :=
  l.foldl (fun acc e =>
    if acc.any (fun e2 => decide (e2.cui = e.cui) &&
        decide (e2.row_nr = e.row_nr) && decide (e2.meta_anns = e.meta_anns))
    then acc
    else acc ++ [e]) []

/-- Embedding of `_annotated_results_to_df`
(src/ehrapy/tools/nlp/_medcat.py): the source calls
`df.drop_duplicates(subset=["cui", "row_nr", "meta_anns"])`, but
`drop_duplicates` is not in-place and its returned frame is discarded
(never reassigned), so the frame built from the flattened results is
returned unchanged. -/
def _annotated_results_to_df (flattened_results : List FlatEntity) :
    List FlatEntity :=
  let df := flattened_results
  let _deduplicated := dropDuplicatesCuiRowStatus df
  df

/-- Stable insertion by ascending `row_nr`, the model of pandas
`sort_values(by=["row_nr"])`. -/
def insertByRowNr (e : FlatEntity) : List FlatEntity → List FlatEntity
  | [] => [e]
  | f :: rest =>
    if e.row_nr ≤ f.row_nr then e :: f :: rest
    else f :: insertByRowNr e rest

/-- The table `annotate_text` (src/ehrapy/tools/nlp/_medcat.py) stores
under `adata.uns[key_added]`: the frame from `_annotated_results_to_df`,
sorted by row number ascending with a dense index reset (the reset is a
no-op on a plain list). -/
def annotateStoredTable (flattened_results : List FlatEntity) :
    List FlatEntity :=
  (_annotated_results_to_df flattened_results).foldr insertByRowNr []

/-- The Python exceptions `_check_valid_name` can raise: the
`EntitiyNotFoundError` class of the source (note the source's spelling),
and the `TypeError` the interpreter raises when tuple-unpacking `None`. -/
inductive PyError where
  | typeError (msg : String)
  | entitiyNotFoundError (msg : String)
deriving DecidableEq

/-- `df["pretty_name"].unique()`: unique values in first-seen order. -/
def uniqueFirst (l : List String) : List String :=
  l.foldl (fun acc x => if x ∈ acc then acc else acc ++ [x]) []

/-- Embedding of `_check_valid_name` (src/ehrapy/tools/nlp/_medcat.py),
parametrized by the external fuzzy matcher
`thefuzz.process.extractOne(query, choices, score_cutoff=50)`, which
returns the best (match, score) pair whose score reaches the cutoff 50,
or `None` when no choice does.  Faithful points: when `extractOne`
returns `None`, the tuple unpacking `new_name, _ = ...` raises
`TypeError` immediately; the final message interpolates the invalid
names and, on the suggestion branch, only the most recent `new_name`
(message text approximated up to Python's list repr). -/
def _check_valid_name
    (extractOne : String → List String → Option (String × Nat))
    (pretty_names : List String) (name : List String) :
    Except PyError Unit := do
  let acc ← name.foldlM
    (fun (acc : List String × List String × Option String) nm => do
      if nm ∈ pretty_names then
        Except.ok acc
      else
        match extractOne nm (uniqueFirst pretty_names) with
        | none =>
          Except.error (.typeError "cannot unpack non-iterable NoneType object")
        | some (new_name, _score) =>
          Except.ok (acc.1 ++ [nm], acc.2.1 ++ [new_name], some new_name))
    ([], [], none)
  match acc with
  | (invalid_names, suggested_names, last_new_name) =>
    if invalid_names ≠ [] then
      if suggested_names ≠ [] then
        Except.error (.entitiyNotFoundError
          ("Did not find '" ++ String.intercalate ", " invalid_names ++
            "' in MedCAT's extracted entities. Do you mean " ++
            last_new_name.getD "" ++ "?"))
      else
        Except.error (.entitiyNotFoundError
          ("Did not find '" ++ String.intercalate ", " invalid_names ++
            "' in MedCAT's extracted entities."))
    else
      Except.ok ()

end Ehrapy

namespace Ehrapy

/-- C8: For every explicit (non-"all") nonempty group subset and every
reference group that is known, not "rest" and not a member of the subset,
`_get_groups_order` succeeds with the subset followed by the reference as the
last element, and the reference occurs exactly once in the output. -/
theorem c8_reference_appended_once (subset group_names : List String)
    (reference : String) (hne : subset ≠ []) (href : reference ≠ "rest")
    (hmem : reference ∉ subset) (hknown : reference ∈ group_names) :
    _get_groups_order (.seq (subset.map GId.str)) group_names reference
      = .ok (subset.map GId.str ++ [GId.str reference]) ∧
    (subset.map GId.str ++ [GId.str reference]).count (GId.str reference) = 1 := by
  obtain ⟨a, rest, rfl⟩ : ∃ a rest, subset = a :: rest := by
    cases subset with
    | nil => exact absurd rfl hne
    | cons a rest => exact ⟨a, rest, rfl⟩
  have hnotmem : GId.str reference ∉ (a :: rest).map GId.str := by
    intro hc
    rcases List.mem_map.mp hc with ⟨x, hx, hex⟩
    rw [GId.str.injEq] at hex
    exact hmem (hex ▸ hx)
  constructor
  · simp only [_get_groups_order, List.map_cons, GId.isInt, Bool.false_eq_true,
      if_false]
    rw [if_pos ⟨href, by simpa using hnotmem⟩, if_neg (fun hc => hc.2 hknown)]
  · have h0 : ((a :: rest).map GId.str).count (GId.str reference) = 0 :=
      List.count_eq_zero.mpr hnotmem
    rw [List.count_append, h0]
    simp [List.count_cons]

/-- Witness for C8 at a concrete input. -/
theorem c8_reference_appended_once_witness :
    _get_groups_order (.seq (["g1", "g2"].map GId.str)) ["g1", "g2", "g3"] "g3"
      = .ok (["g1", "g2"].map GId.str ++ [GId.str "g3"]) ∧
    (["g1", "g2"].map GId.str ++ [GId.str "g3"]).count (GId.str "g3") = 1 :=
  c8_reference_appended_once ["g1", "g2"] ["g1", "g2", "g3"] "g3"
    (by decide) (by decide) (by decide) (by decide)

/-- C5: saving twice under the same key and field with group orders
["A","B"] and then ["B","A"] merges by reordering the existing columns to
the new group order by name, so the merged "A" column is the first call's
"A" values followed by the second call's "A" values, and likewise for "B". -/
theorem c5_merge_aligns_columns_by_name (rows1 rows2 : List (List ℚ))
    (h1 : rows1 ≠ []) (h2 : rows2 ≠ []) :
    ∃ t1 t2,
      saveField none (some rows1) ["A", "B"] = .ok (some t1) ∧
      saveField (some t1) (some rows2) ["B", "A"] = .ok (some t2) ∧
      lookupCol t2 "A" = arrayCol rows1 0 ++ arrayCol rows2 1 ∧
      lookupCol t2 "B" = arrayCol rows1 1 ++ arrayCol rows2 0 := by
  have hl1 : ¬rows1.length = 0 := by
    simpa [List.length_eq_zero] using h1
  have hl2 : ¬rows2.length = 0 := by
    simpa [List.length_eq_zero] using h2
  refine ⟨mkRecArray ["A", "B"] rows1,
    [("B", arrayCol rows1 1 ++ arrayCol rows2 0),
     ("A", arrayCol rows1 0 ++ arrayCol rows2 1)], ?_, ?_, ?_, ?_⟩
  · simp [saveField, hl1]
  · simp [saveField, hl2, _merge_arrays, mergeArraysAux, mkRecArray,
      mkRecArrayAux, lookupCol, Except.map]
  · simp [lookupCol]
  · simp [lookupCol]

/-- A `mapM` over `Except` whose body always succeeds is a plain map. -/
theorem mapM_ok_of_ok {ε α β : Type} (g : α → β) (l : List α) :
    l.mapM (fun a => (Except.ok (g a) : Except ε β)) = Except.ok (l.map g) := by
  induction l with
  | nil => rfl
  | cons a t ih => rw [List.mapM_cons, ih]; rfl

/-- Characterization of a successful `_evaluate_categorical_features` run:
with a recognized test name and a resolved group order, it returns the
record built featurewise, the statistic columns following the source's
iteration order `testedGroups`. -/
theorem evaluate_ok_char (chi2 : ℚ → List (String × Bool) → ℚ × ℚ)
    (adata : AData) (groupby : String) (group_names : List String)
    (groups : GroupsParam) (reference : String) (method : String)
    (pts : Bool) (lambda_ : ℚ) (go : List GId)
    (hl : tests_to_lambdas method = some lambda_)
    (hgo : _get_groups_order groups group_names reference = .ok go) :
    _evaluate_categorical_features chi2 adata groupby group_names groups
        reference method pts
      = .ok
        { names := (keptFeatures adata groupby).map
            (fun f => List.replicate group_names.length f)
          scores := (keptFeatures adata groupby).map (fun f =>
            (testedGroups group_names go).map (fun g =>
              (perGroupStat chi2 lambda_ (adata.X f) (adata.obs groupby)
                reference go g).1))
          pvals := (keptFeatures adata groupby).map (fun f =>
            (testedGroups group_names go).map (fun g =>
              (perGroupStat chi2 lambda_ (adata.X f) (adata.obs groupby)
                reference go g).2))
          logfoldchanges := (keptFeatures adata groupby).map
            (fun _ => List.replicate group_names.length (1 : ℚ))
          pts :=
            if pts then
              (keptFeatures adata groupby).map
                (fun _ => List.replicate group_names.length (1 : ℚ))
            else [] } := by
  unfold _evaluate_categorical_features
  rw [hgo]
  simp only [hl, mapM_ok_of_ok, Function.comp_def, List.map_map]

/-- Unfolding of `lookupCol` on a cons cell. -/
theorem lookupCol_cons (p : String × List α) (t : RecArray α) (g : String) :
    lookupCol (p :: t) g = if p.1 = g then p.2 else lookupCol t g := by
  by_cases h : p.1 = g <;> simp [lookupCol, List.find?, h]

/-- In a record array with distinct column names, `lookupCol` returns the
column of each entry. -/
theorem lookupCol_eq_of_nodup {t : RecArray α}
    (hnd : (t.map Prod.fst).Nodup) {p : String × List α} (hp : p ∈ t) :
    lookupCol t p.1 = p.2 := by
  induction t with
  | nil => cases hp
  | cons q rest ih =>
    rw [List.map_cons, List.nodup_cons] at hnd
    rcases List.mem_cons.mp hp with rfl | hrest
    · simp [lookupCol_cons]
    · have hq : q.1 ≠ p.1 := fun he =>
        hnd.1 (he ▸ List.mem_map_of_mem Prod.fst hrest)
      rw [lookupCol_cons, if_neg hq]
      exact ih hnd.2 hrest

/-- The pure column-update fold underlying `_adjust_pvalues`: once every
remaining column name is processed, every entry of the accumulator holds
the new column for its name. -/
theorem foldl_updateCol_spec (f : String → List ℚ) :
    ∀ (gs : List String) (t target : RecArray ℚ),
      List.Forall₂ (fun q p => q.1 = p.1 ∧ (p.1 ∉ gs → q.2 = f p.1))
        t target →
      gs.foldl (fun t g => updateCol t g (f g)) t
        = target.map (fun p => (p.1, f p.1)) := by
  intro gs
  induction gs with
  | nil =>
    intro t target hinv
    simp only [List.foldl_nil]
    induction hinv with
    | nil => rfl
    | cons hab htail ih =>
      rw [List.map_cons, ← ih]
      obtain ⟨h1, h2⟩ := hab
      have h2' := h2 (by simp)
      congr 1
      exact Prod.ext_iff.mpr ⟨h1, h2'⟩
  | cons g gs ih =>
    intro t target hinv
    rw [List.foldl_cons]
    apply ih
    have hstep : ∀ {a b : String × List ℚ},
        (a.1 = b.1 ∧ (b.1 ∉ g :: gs → a.2 = f b.1)) →
        (((fun p => if p.1 = g then (p.1, f g) else p) a).1 = b.1 ∧
          (b.1 ∉ gs →
            ((fun p => if p.1 = g then (p.1, f g) else p) a).2 = f b.1)) := by
      intro a b hab
      obtain ⟨h1, h2⟩ := hab
      by_cases hag : a.1 = g
      · have ha : (fun p => if p.1 = g then (p.1, f g) else p) a
            = (a.1, f g) := by simp [hag]
        rw [ha]
        refine ⟨h1, fun _ => ?_⟩
        show f g = f b.1
        rw [← h1, hag]
      · have ha : (fun p => if p.1 = g then (p.1, f g) else p) a = a := by
          simp [hag]
        rw [ha]
        refine ⟨h1, fun hb => ?_⟩
        exact h2 (fun hc => (List.mem_cons.mp hc).elim
          (fun hc1 => hag (h1.trans hc1)) (fun hc2 => hb hc2))
    show List.Forall₂ _ (updateCol t g (f g)) target
    unfold updateCol
    clear ih
    induction hinv with
    | nil => exact .nil
    | cons hab htail ih2 => exact .cons (hstep hab) ih2

/-- The state fold of `_adjust_pvalues` never touches the input array and
acts on the output array as a pure column-update fold. -/
theorem foldl_adjustStep (mt : List ℚ → String → List ℚ) (m : String)
    (pvals : RecArray ℚ) :
    ∀ (gs : List String) (adj : RecArray ℚ),
      gs.foldl (adjustStep mt m) ⟨pvals, adj⟩
        = ⟨pvals,
            gs.foldl
              (fun t g => updateCol t g (mt (lookupCol pvals g) m)) adj⟩ := by
  intro gs
  induction gs with
  | nil => intro adj; rfl
  | cons g gs ih =>
    intro adj
    rw [List.foldl_cons, List.foldl_cons]
    exact ih _

/-- A `foldlM` over `Except` whose body always succeeds is a plain fold. -/
theorem foldlM_ok {β γ : Type} (f : β → γ → β) :
    ∀ (l : List γ) (init : β),
      (l.foldlM (fun s a => (Except.ok (f s a) : Except String β)) init)
        = Except.ok (l.foldl f init) := by
  intro l
  induction l with
  | nil => intro init; rfl
  | cons a t ih =>
    intro init
    rw [List.foldlM_cons]
    exact ih (f init a)

/-- Characterization of `_adjust_pvalues`' state when the correction
method is recognized and the field names are distinct: the input array is
returned untouched, and the output array holds, for each field, the
external primitive applied to that field's own input column. -/
theorem adjustPvaluesState_ok (mt : List ℚ → String → List ℚ)
    (pvals : RecArray ℚ) (corr_method m : String)
    (hm : method_map corr_method = some m)
    (hnd : (pvals.map Prod.fst).Nodup) :
    adjustPvaluesState mt pvals corr_method
      = .ok ⟨pvals, pvals.map (fun p => (p.1, mt p.2 m))⟩ := by
  unfold adjustPvaluesState
  simp only [hm]
  rw [foldlM_ok (adjustStep mt m), foldl_adjustStep]
  have hforall : ∀ (l : RecArray ℚ), (∀ p ∈ l, p.1 ∈ pvals.map Prod.fst) →
      List.Forall₂
        (fun q p => q.1 = p.1 ∧
          (p.1 ∉ pvals.map Prod.fst → q.2 = mt (lookupCol pvals p.1) m))
        (l.map (fun p => (p.1, p.2.map (fun _ => (1 : ℚ))))) l := by
    intro l
    induction l with
    | nil => intro _; exact .nil
    | cons p rest ih =>
      intro hl
      refine .cons ⟨rfl, ?_⟩ (ih (fun q hq => hl q (List.mem_cons_of_mem p hq)))
      intro hc
      exact absurd (hl p (List.mem_cons_self p rest)) hc
  have hspec : (pvals.map Prod.fst).foldl
      (fun t g => updateCol t g (mt (lookupCol pvals g) m)) (onesLike pvals)
      = pvals.map (fun p => (p.1, mt (lookupCol pvals p.1) m)) :=
    foldl_updateCol_spec (fun g => mt (lookupCol pvals g) m)
      (pvals.map Prod.fst) (onesLike pvals) pvals
      (hforall pvals (fun p hp => List.mem_map_of_mem Prod.fst hp))
  rw [hspec]
  simp only [Except.ok.injEq, PvState.mk.injEq, eq_self_iff_true, true_and]
  apply List.map_congr_left
  intro p hp
  rw [lookupCol_eq_of_nodup hnd hp]

/-- Elementwise comparison with the Bonferroni-corrected column. -/
theorem forall₂_le_bonferroni (n : ℚ) (hn : 1 ≤ n) :
    ∀ (col : List ℚ), (∀ x ∈ col, 0 ≤ x ∧ x ≤ 1) →
      List.Forall₂ (fun x y => x ≤ y) col
        (col.map (fun p => min (p * n) 1)) := by
  intro col
  induction col with
  | nil => intro _; exact .nil
  | cons x rest ih =>
    intro hr
    have hx := hr x (List.mem_cons_self x rest)
    refine .cons ?_ (ih (fun y hy => hr y (List.mem_cons_of_mem x hy)))
    exact le_min (le_mul_of_one_le_right hx.1 hn) hx.2

/-- A column is elementwise below its own Bonferroni correction. -/
theorem forall₂_le_bonferroni_col (col : List ℚ)
    (hr : ∀ x ∈ col, 0 ≤ x ∧ x ≤ 1) :
    List.Forall₂ (fun x y => x ≤ y) col
      (col.map (fun p => min (p * (col.length : ℚ)) 1)) := by
  cases col with
  | nil => exact .nil
  | cons x rest =>
    apply forall₂_le_bonferroni
    · exact_mod_cast Nat.succ_le_succ (Nat.zero_le rest.length)
    · exact hr

/-- C6: for p-value arrays with distinct group columns and entries in
[0,1], the Bonferroni-corrected value at every position is at least the
raw value, and each corrected column is the external primitive applied to
that column alone (per-column independence). -/
theorem c6_bonferroni_ge_raw (pvals adj : RecArray ℚ)
    (hnd : (pvals.map Prod.fst).Nodup)
    (hrange : ∀ p ∈ pvals, ∀ x ∈ p.2, 0 ≤ x ∧ x ≤ 1)
    (h : _adjust_pvalues multipletests pvals "bonferroni" = .ok adj) :
    List.Forall₂ (fun p q => p.1 = q.1 ∧
      q.2 = multipletests p.2 "bonferroni" ∧
      List.Forall₂ (fun x y => x ≤ y) p.2 q.2) pvals adj := by
  unfold _adjust_pvalues at h
  rw [adjustPvaluesState_ok multipletests pvals "bonferroni" "bonferroni"
    rfl hnd] at h
  simp only [Except.map] at h
  injection h with h2
  subst h2
  have : ∀ (l : RecArray ℚ), (∀ p ∈ l, ∀ x ∈ p.2, 0 ≤ x ∧ x ≤ 1) →
      List.Forall₂ (fun p q => p.1 = q.1 ∧
        q.2 = multipletests p.2 "bonferroni" ∧
        List.Forall₂ (fun x y => x ≤ y) p.2 q.2) l
        (l.map (fun p => (p.1, multipletests p.2 "bonferroni"))) := by
    intro l
    induction l with
    | nil => intro _; exact .nil
    | cons p rest ih =>
      intro hr
      refine .cons ⟨rfl, rfl, ?_⟩
        (ih (fun q hq => hr q (List.mem_cons_of_mem p hq)))
      show List.Forall₂ (fun x y => x ≤ y) p.2
        (multipletests p.2 "bonferroni")
      have hmp : multipletests p.2 "bonferroni"
          = p.2.map (fun x => min (x * (p.2.length : ℚ)) 1) := by
        simp [multipletests]
      rw [hmp]
      exact forall₂_le_bonferroni_col p.2
        (hr p (List.mem_cons_self p rest))
  exact this pvals hrange

/-- Witness for C6 at a concrete input. -/
theorem c6_bonferroni_ge_raw_witness :
    ((([("g1", [(0 : ℚ), 1]), ("g2", [1, 1])] : RecArray ℚ).map
        Prod.fst).Nodup) ∧
    List.Forall₂ (fun p q => p.1 = q.1 ∧
      q.2 = multipletests p.2 "bonferroni" ∧
      List.Forall₂ (fun x y => x ≤ y) p.2 q.2)
      [("g1", [(0 : ℚ), 1]), ("g2", [1, 1])]
      [("g1", [(0 : ℚ), 1]), ("g2", [1, 1])] := by
  refine ⟨by decide, ?_⟩
  apply c6_bonferroni_ge_raw
  · decide
  · decide
  · show Except.map PvState.pvals_adj
      (adjustPvaluesState multipletests
        [("g1", [(0 : ℚ), 1]), ("g2", [1, 1])] "bonferroni") = _
    rw [adjustPvaluesState_ok multipletests _ "bonferroni" "bonferroni"
      rfl (by decide)]
    norm_num [multipletests, Except.map]

/-- C10: the p-value adjuster never mutates its input: after the run the
input array component of the state equals the original array, and the
returned array has the same field names and column lengths (given a
length-preserving external primitive and distinct field names). -/
theorem c10_adjust_pvalues_frame (mt : List ℚ → String → List ℚ)
    (pvals : RecArray ℚ) (corr_method : String) (s : PvState)
    (hlen : ∀ l mm, (mt l mm).length = l.length)
    (hnd : (pvals.map Prod.fst).Nodup)
    (h : adjustPvaluesState mt pvals corr_method = .ok s) :
    s.pvals = pvals ∧
    s.pvals_adj.map Prod.fst = pvals.map Prod.fst ∧
    s.pvals_adj.map (fun p => p.2.length)
      = pvals.map (fun p => p.2.length) := by
  cases hm : method_map corr_method with
  | some m =>
    rw [adjustPvaluesState_ok mt pvals corr_method m hm hnd] at h
    injection h with h2
    subst h2
    refine ⟨rfl, ?_, ?_⟩
    · simp [List.map_map, Function.comp_def]
    · simp [List.map_map, Function.comp_def, hlen]
  | none =>
    cases pvals with
    | nil =>
      simp only [adjustPvaluesState, List.map_nil, List.foldlM,
        onesLike] at h
      injection h with h2
      subst h2
      exact ⟨rfl, rfl, rfl⟩
    | cons p rest =>
      simp [adjustPvaluesState, hm, List.foldlM, Bind.bind, Except.bind] at h

/-- Witness for C10 at a concrete input. -/
theorem c10_adjust_pvalues_frame_witness :
    (PvState.mk [("g1", [(1 : ℚ)]), ("g2", [0])]
        [("g1", [(1 : ℚ)]), ("g2", [0])]).pvals
      = [("g1", [(1 : ℚ)]), ("g2", [0])] ∧
    ([("g1", [(1 : ℚ)]), ("g2", [0])] : RecArray ℚ).map Prod.fst
      = ([("g1", [(1 : ℚ)]), ("g2", [0])] : RecArray ℚ).map Prod.fst ∧
    ([("g1", [(1 : ℚ)]), ("g2", [0])] : RecArray ℚ).map
        (fun p => p.2.length)
      = ([("g1", [(1 : ℚ)]), ("g2", [0])] : RecArray ℚ).map
        (fun p => p.2.length) := by
  apply c10_adjust_pvalues_frame multipletests
    [("g1", [(1 : ℚ)]), ("g2", [0])] "bonferroni"
  · intro l mm
    by_cases hb : mm = "bonferroni" <;> simp [multipletests, hb]
  · decide
  · rw [adjustPvaluesState_ok multipletests _ "bonferroni" "bonferroni"
      rfl (by decide)]
    norm_num [multipletests]

/-- Membership in an `insertIdx` result. -/
theorem mem_insertIdx (v : List ℚ) (i : Nat) :
    ∀ (l : List Nat) (j : Nat), j ∈ insertIdx v i l ↔ j = i ∨ j ∈ l := by
  intro l
  induction l with
  | nil =>
    intro j
    simp [insertIdx]
  | cons k rest ih =>
    intro j
    unfold insertIdx
    by_cases hc : v.getD i 0 ≤ v.getD k 0
    · rw [if_pos hc]
      simp [List.mem_cons]
    · rw [if_neg hc]
      simp only [List.mem_cons, ih]
      tauto

/-- `insertIdx` keeps the index list ordered by the values of `v`. -/
theorem pairwise_insertIdx (v : List ℚ) (i : Nat) :
    ∀ (l : List Nat),
      List.Pairwise (fun a b => v.getD a 0 ≤ v.getD b 0) l →
      List.Pairwise (fun a b => v.getD a 0 ≤ v.getD b 0) (insertIdx v i l) := by
  intro l
  induction l with
  | nil => intro _; exact List.pairwise_singleton _ _
  | cons k rest ih =>
    intro hp
    rcases List.pairwise_cons.mp hp with ⟨hk, hrest⟩
    unfold insertIdx
    by_cases hc : v.getD i 0 ≤ v.getD k 0
    · rw [if_pos hc]
      refine List.pairwise_cons.mpr ⟨?_, hp⟩
      intro b hb
      rcases List.mem_cons.mp hb with rfl | hbr
      · exact hc
      · exact le_trans hc (hk b hbr)
    · rw [if_neg hc]
      refine List.pairwise_cons.mpr ⟨?_, ih hrest⟩
      intro b hb
      rcases (mem_insertIdx v i rest b).mp hb with rfl | hbr
      · exact le_of_not_le hc
      · exact hk b hbr

/-- The indices `argsort` returns are ordered by the values of `v`. -/
theorem pairwise_argsort (v : List ℚ) :
    List.Pairwise (fun a b => v.getD a 0 ≤ v.getD b 0) (argsort v) := by
  unfold argsort
  generalize List.range v.length = l
  induction l with
  | nil => exact .nil
  | cons i rest ih =>
    rw [List.foldr_cons]
    exact pairwise_insertIdx v i _ ih

/-- Reordering a column by its own `argsort` yields a sorted column. -/
theorem sorted_applyPerm_argsort (v : List ℚ) :
    List.Sorted (· ≤ ·) (applyPerm (argsort v) v) := by
  unfold applyPerm List.Sorted
  rw [List.pairwise_map]
  exact pairwise_argsort v

/-- `updateCol` on a cons cell. -/
theorem updateCol_cons (q : String × List α) (rest : RecArray α)
    (g : String) (c : List α) :
    updateCol (q :: rest) g c
      = (if q.1 = g then (q.1, c) else q) :: updateCol rest g c := rfl

/-- `updateCol` keeps the column names. -/
theorem updateCol_map_fst (t : RecArray α) (g : String) (c : List α) :
    (updateCol t g c).map Prod.fst = t.map Prod.fst := by
  unfold updateCol
  rw [List.map_map]
  apply List.map_congr_left
  intro p _
  by_cases h : p.1 = g <;> simp [h]

/-- `updateCol` leaves other-named columns untouched. -/
theorem lookupCol_updateCol_ne (t : RecArray α) (g g' : String)
    (c : List α) (h : g' ≠ g) :
    lookupCol (updateCol t g c) g' = lookupCol t g' := by
  induction t with
  | nil => rfl
  | cons q rest ih =>
    rw [updateCol_cons, lookupCol_cons, lookupCol_cons]
    by_cases hq : q.1 = g
    · simp only [if_pos hq]
      have hq' : ¬q.1 = g' := fun hc => h (hc.symm.trans hq)
      show (if q.1 = g' then c else lookupCol (updateCol rest g c) g') = _
      rw [if_neg hq', if_neg hq']
      exact ih
    · simp only [if_neg hq]
      by_cases hq' : q.1 = g'
      · rw [if_pos hq', if_pos hq']
      · rw [if_neg hq', if_neg hq']
        exact ih

/-- `lookupField` through a key-preserving entry map. -/
theorem lookupField_map (F : (String × RecArray ℚ) → String × RecArray ℚ)
    (hF : ∀ kt, (F kt).1 = kt.1) (st : List (String × RecArray ℚ))
    (key : String) :
    lookupField (st.map F) key
      = (st.find? (fun p => p.1 = key)).map (fun kt => (F kt).2) := by
  unfold lookupField
  rw [List.find?_map]
  have hpred : ((fun p : String × RecArray ℚ => decide (p.1 = key)) ∘ F)
      = fun p => decide (p.1 = key) := by
    funext kt
    rw [Function.comp_apply, hF]
  rw [hpred, Option.map_map]
  rfl

/-- A found `lookupField` entry: the underlying `find?` result. -/
theorem lookupField_find (st : List (String × RecArray ℚ)) (key : String)
    (t : RecArray ℚ) (h : lookupField st key = some t) :
    ∃ e, st.find? (fun p => p.1 = key) = some e ∧ e.1 = key ∧ e.2 = t := by
  unfold lookupField at h
  cases hf : st.find? (fun p => p.1 = key) with
  | none => rw [hf] at h; cases h
  | some e =>
    rw [hf] at h
    have hpe := @List.find?_some (String × RecArray ℚ)
      (fun p => decide (p.1 = key)) e st hf
    refine ⟨e, rfl, of_decide_eq_true hpe, ?_⟩
    simpa using h

/-- Characterization of the `_sort_features` fold: after processing a
duplicate-free list of group names whose adjusted-p-value columns are
still the original ones, every non-`"params"` field's column named in the
list has been reordered by the `argsort` of the original adjusted
p-values of that name, and everything else is untouched. -/
theorem foldl_sortStep_spec (pa : RecArray ℚ)
    (hnd : (pa.map Prod.fst).Nodup) :
    ∀ (gs : List String), gs.Nodup →
      ∀ (st : List (String × RecArray ℚ)) (pa' : RecArray ℚ),
      lookupField st "pvals_adj" = some pa' →
      (∀ kt ∈ st, kt.1 ≠ "params" →
        kt.2.map Prod.fst = pa.map Prod.fst) →
      (∀ g ∈ gs, lookupCol pa' g = lookupCol pa g) →
      gs.foldl sortStep st
        = st.map (fun kt => if kt.1 = "params" then kt else
            (kt.1, kt.2.map (fun c => if c.1 ∈ gs then
              (c.1, applyPerm (argsort (lookupCol pa c.1)) c.2) else c))) := by
  intro gs
  induction gs with
  | nil =>
    intro _ st pa' _ _ _
    rw [List.foldl_nil]
    have : st.map (fun kt => if kt.1 = "params" then kt else
        (kt.1, kt.2.map (fun c => if c.1 ∈ ([] : List String) then
          (c.1, applyPerm (argsort (lookupCol pa c.1)) c.2) else c)))
        = st.map id := by
      apply List.map_congr_left
      intro kt _
      by_cases hp : kt.1 = "params" <;> simp [hp]
    rw [this, List.map_id]
  | cons g gs ih =>
    intro hgnd st pa' hpa' hal hinv
    obtain ⟨hgnotin, hgsnd⟩ := List.nodup_cons.mp hgnd
    obtain ⟨e, hfind, he1, he2⟩ := lookupField_find st "pvals_adj" pa' hpa'
    rw [List.foldl_cons]
    have hstep : sortStep st g = st.map (fun kt =>
        if kt.1 = "params" then kt else
          (kt.1, updateCol kt.2 g
            (applyPerm (argsort (lookupCol pa g)) (lookupCol kt.2 g)))) := by
      unfold sortStep
      simp only [hpa', Option.getD_some]
      rw [hinv g (List.mem_cons_self g gs)]
    rw [hstep]
    have hF1 : ∀ kt : String × RecArray ℚ,
        ((fun kt => if kt.1 = "params" then kt else
          (kt.1, updateCol kt.2 g
            (applyPerm (argsort (lookupCol pa g)) (lookupCol kt.2 g)))) kt).1
          = kt.1 := by
      intro kt
      by_cases hp : kt.1 = "params" <;> simp [hp]
    have hpa1 : lookupField (st.map (fun kt =>
        if kt.1 = "params" then kt else
          (kt.1, updateCol kt.2 g
            (applyPerm (argsort (lookupCol pa g)) (lookupCol kt.2 g)))))
        "pvals_adj"
        = some (updateCol pa' g
            (applyPerm (argsort (lookupCol pa g)) (lookupCol pa' g))) := by
      rw [lookupField_map _ hF1, hfind]
      have hne : ¬e.1 = "params" := by rw [he1]; decide
      simp [hne, he2]
    have hal1 : ∀ kt ∈ st.map (fun kt =>
        if kt.1 = "params" then kt else
          (kt.1, updateCol kt.2 g
            (applyPerm (argsort (lookupCol pa g)) (lookupCol kt.2 g)))),
        kt.1 ≠ "params" → kt.2.map Prod.fst = pa.map Prod.fst := by
      intro kt1 h1 hne
      rcases List.mem_map.mp h1 with ⟨kt, hkt, rfl⟩
      rw [hF1 kt] at hne
      rw [if_neg hne]
      show (updateCol kt.2 g _).map Prod.fst = _
      rw [updateCol_map_fst]
      exact hal kt hkt hne
    have hinv1 : ∀ g' ∈ gs,
        lookupCol (updateCol pa' g
          (applyPerm (argsort (lookupCol pa g)) (lookupCol pa' g))) g'
          = lookupCol pa g' := by
      intro g' hg'
      have hne : g' ≠ g := fun hc => hgnotin (hc ▸ hg')
      rw [lookupCol_updateCol_ne _ _ _ _ hne]
      exact hinv g' (List.mem_cons_of_mem g hg')
    rw [ih hgsnd _ _ hpa1 hal1 hinv1, List.map_map]
    apply List.map_congr_left
    intro kt hkt
    rw [Function.comp_apply]
    by_cases hp : kt.1 = "params"
    · rw [if_pos hp, if_pos hp, if_pos hp]
    · rw [if_neg hp]
      have hktnames : kt.2.map Prod.fst = pa.map Prod.fst := hal kt hkt hp
      have hktnd : (kt.2.map Prod.fst).Nodup := hktnames ▸ hnd
      show (if kt.1 = "params" then _ else _) = _
      rw [if_neg hp, if_neg hp]
      refine congrArg (fun z => (kt.1, z)) ?_
      show (updateCol kt.2 g _).map _ = _
      unfold updateCol
      rw [List.map_map]
      apply List.map_congr_left
      intro c hc
      rw [Function.comp_apply]
      by_cases hcg : c.1 = g
      · have hgin : c.1 ∈ g :: gs := by rw [hcg]; exact List.mem_cons_self g gs
        have hgout : ¬(c.1 ∈ gs) := by rw [hcg]; exact hgnotin
        rw [if_pos hcg]
        show (if (c.1 : String) ∈ gs then _ else ((c.1 : String),
          applyPerm (argsort (lookupCol pa g)) (lookupCol kt.2 g))) = _
        rw [if_neg hgout, if_pos hgin]
        have hlc : lookupCol kt.2 c.1 = c.2 := lookupCol_eq_of_nodup hktnd hc
        rw [← hcg, hlc]
      · rw [if_neg hcg]
        by_cases hcin : c.1 ∈ gs
        · rw [if_pos hcin, if_pos (List.mem_cons_of_mem g hcin)]
        · rw [if_neg hcin, if_neg (fun hcc =>
            (List.mem_cons.mp hcc).elim (fun h1 => hcg h1) hcin)]

/-- `lookupCol` through a name-preserving column map. -/
theorem lookupCol_map (F : (String × List ℚ) → String × List ℚ)
    (hF : ∀ c, (F c).1 = c.1) (t : RecArray ℚ) (g : String) :
    lookupCol (t.map F) g
      = ((t.find? (fun c => c.1 = g)).map (fun c => (F c).2)).getD [] := by
  unfold lookupCol
  rw [List.find?_map]
  have hpred : ((fun c : String × List ℚ => decide (c.1 = g)) ∘ F)
      = fun c => decide (c.1 = g) := by
    funext c
    rw [Function.comp_apply, hF]
  rw [hpred]
  cases t.find? (fun c => decide (c.1 = g)) <;> rfl

/-- C7: after `_sort_features` runs on a stored key whose adjusted
p-value field is present with duplicate-free group columns and whose
non-"params" fields are all aligned with it, (a) the result is the
original store with every non-"params" field's group column reordered by
the `argsort` of the original adjusted p-values of that same group — the
same permutation across all fields of a group; (b) every group column of
the resulting adjusted-p-value field is non-decreasing; (c) the "params"
field is left exactly as it was. -/
theorem c7_sort_features_sorts_by_adjusted_pvalues
    (store : List (String × RecArray ℚ)) (pa : RecArray ℚ)
    (res : List (String × RecArray ℚ))
    (hpa : lookupField store "pvals_adj" = some pa)
    (hnd : (pa.map Prod.fst).Nodup)
    (hal : ∀ kt ∈ store, kt.1 ≠ "params" →
      kt.2.map Prod.fst = pa.map Prod.fst)
    (h : _sort_features store = .ok res) :
    res = store.map (fun kt => if kt.1 = "params" then kt else
      (kt.1, kt.2.map (fun c =>
        (c.1, applyPerm (argsort (lookupCol pa c.1)) c.2)))) ∧
    (∀ g, List.Sorted (· ≤ ·)
      (lookupCol ((lookupField res "pvals_adj").getD []) g)) ∧
    lookupField res "params" = lookupField store "params" := by
  unfold _sort_features at h
  rw [hpa] at h
  injection h with h2
  have hres : res = store.map (fun kt => if kt.1 = "params" then kt else
      (kt.1, kt.2.map (fun c =>
        (c.1, applyPerm (argsort (lookupCol pa c.1)) c.2)))) := by
    rw [← h2,
      foldl_sortStep_spec pa hnd (pa.map Prod.fst) hnd store pa hpa hal
        (fun _ _ => rfl)]
    apply List.map_congr_left
    intro kt hkt
    by_cases hp : kt.1 = "params"
    · rw [if_pos hp, if_pos hp]
    · rw [if_neg hp, if_neg hp]
      refine congrArg (fun z => (kt.1, z)) ?_
      apply List.map_congr_left
      intro c hc
      rw [if_pos]
      rw [← hal kt hkt hp]
      exact List.mem_map_of_mem Prod.fst hc
  have hFfst : ∀ kt : String × RecArray ℚ,
      ((fun kt => if kt.1 = "params" then kt else
        (kt.1, kt.2.map (fun c =>
          (c.1, applyPerm (argsort (lookupCol pa c.1)) c.2)))) kt).1
        = kt.1 := by
    intro kt
    by_cases hp : kt.1 = "params" <;> simp [hp]
  refine ⟨hres, ?_, ?_⟩
  · intro g
    obtain ⟨e, hfind, he1, he2⟩ := lookupField_find store "pvals_adj" pa hpa
    rw [hres, lookupField_map _ hFfst, hfind]
    have hne : ¬e.1 = "params" := by rw [he1]; decide
    simp only [Option.map_some', Option.getD_some, if_neg hne]
    rw [lookupCol_map (fun c =>
        (c.1, applyPerm (argsort (lookupCol pa c.1)) c.2)) (fun _ => rfl)]
    cases hf2 : e.2.find? (fun c => c.1 = g) with
    | none => exact List.sorted_nil
    | some c =>
      simp only [Option.map_some', Option.getD_some]
      have hcm : c ∈ e.2 := List.mem_of_find?_eq_some hf2
      have hlc : lookupCol pa c.1 = c.2 := by
        rw [← he2]
        exact lookupCol_eq_of_nodup (he2 ▸ hnd) hcm
      rw [hlc]
      exact sorted_applyPerm_argsort c.2
  · rw [hres, lookupField_map _ hFfst]
    unfold lookupField
    cases hf : store.find? (fun p => p.1 = "params") with
    | none => rfl
    | some e =>
      have hpe := @List.find?_some (String × RecArray ℚ)
        (fun p => decide (p.1 = "params")) e store hf
      have he1 : e.1 = "params" := of_decide_eq_true hpe
      simp only [Option.map_some', if_pos he1]

/-- Witness for C7 at a concrete store. -/
theorem c7_sort_features_sorts_by_adjusted_pvalues_witness :
    ([("pvals_adj", [("g1", [(1 : ℚ), 2]), ("g2", [1, 1])]),
      ("scores", [("g1", [(20 : ℚ), 10]), ("g2", [30, 40])]),
      ("params", [("x", [(5 : ℚ)])])] :
        List (String × RecArray ℚ))
      = ([("pvals_adj", [("g1", [(2 : ℚ), 1]), ("g2", [1, 1])]),
          ("scores", [("g1", [(10 : ℚ), 20]), ("g2", [30, 40])]),
          ("params", [("x", [(5 : ℚ)])])] :
            List (String × RecArray ℚ)).map
        (fun kt => if kt.1 = "params" then kt else
          (kt.1, kt.2.map (fun c =>
            (c.1, applyPerm (argsort (lookupCol
              [("g1", [(2 : ℚ), 1]), ("g2", [1, 1])] c.1)) c.2)))) ∧
    (∀ g, List.Sorted (· ≤ ·)
      (lookupCol ((lookupField
        [("pvals_adj", [("g1", [(1 : ℚ), 2]), ("g2", [1, 1])]),
         ("scores", [("g1", [(20 : ℚ), 10]), ("g2", [30, 40])]),
         ("params", [("x", [(5 : ℚ)])])] "pvals_adj").getD []) g)) ∧
    lookupField
        [("pvals_adj", [("g1", [(1 : ℚ), 2]), ("g2", [1, 1])]),
         ("scores", [("g1", [(20 : ℚ), 10]), ("g2", [30, 40])]),
         ("params", [("x", [(5 : ℚ)])])] "params"
      = lookupField
        [("pvals_adj", [("g1", [(2 : ℚ), 1]), ("g2", [1, 1])]),
         ("scores", [("g1", [(10 : ℚ), 20]), ("g2", [30, 40])]),
         ("params", [("x", [(5 : ℚ)])])] "params" :=
  c7_sort_features_sorts_by_adjusted_pvalues
    [("pvals_adj", [("g1", [(2 : ℚ), 1]), ("g2", [1, 1])]),
     ("scores", [("g1", [(10 : ℚ), 20]), ("g2", [30, 40])]),
     ("params", [("x", [(5 : ℚ)])])]
    [("g1", [(2 : ℚ), 1]), ("g2", [1, 1])]
    [("pvals_adj", [("g1", [(1 : ℚ), 2]), ("g2", [1, 1])]),
     ("scores", [("g1", [(20 : ℚ), 10]), ("g2", [30, 40])]),
     ("params", [("x", [(5 : ℚ)])])]
    rfl (by decide) (by decide) rfl

/-- C1: the claim says the "rest" contingency table partitions only
observations of the selected groups, its non-reference side holding
exactly the current group's observations.  Evaluated at group names
["a","b","c"], selected groups `["a","b"]`, reference `"rest"`, current
group "a", all feature values "x": the mask restricts only the reference
side, so the unselected group "c" observation falls on the current
group's side of `pd.crosstab` — the cell ("x", False) counts 2
observations though only 1 belongs to group "a", and dropping the
unselected observation changes the cell, showing it contributes. -/
theorem c1_rest_table_counts_unselected_observations :
    _get_groups_order (.seq [GId.str "a", GId.str "b"]) ["a", "b", "c"] "rest"
      = .ok [GId.str "a", GId.str "b"] ∧
    crosstabCount (restCrosstabPairs ["x", "x", "x"] ["a", "b", "c"] "a"
      [GId.str "a", GId.str "b"]) "x" false = 2 ∧
    ((["x", "x", "x"].zip ["a", "b", "c"]).filter
      (fun p => decide (p.2 = "a"))).length = 1 ∧
    crosstabCount (restCrosstabPairs ["x", "x"] ["a", "b"] "a"
      [GId.str "a", GId.str "b"]) "x" false = 1 ∧
    _evaluate_categorical_features
        (fun _ pairs => (if crosstabCount pairs "x" false = 2 then (2 : ℚ) else 0, 0))
        ⟨fun _ => ["a", "b", "c"], ["f"], fun _ => ["x", "x", "x"]⟩ "grouping"
        ["a", "b", "c"] (.seq [GId.str "a", GId.str "b"]) "rest" "g-test" false
      = .ok ⟨[["f", "f", "f"]], [[2, 2]], [[0, 0]], [[1, 1, 1]], []⟩ :=
  ⟨rfl, by decide, by decide, by decide, rfl⟩

/-- C2: the claim says the stored annotate table keeps at most one row per
distinct (cui, row_nr, meta_anns) triple.  The source discards the frame
`drop_duplicates` returns, so evaluated at an input with two identical
records the stored table keeps both rows, while the deduplication the call
was meant to perform would keep one. -/
theorem c2_duplicate_triples_survive_in_stored_table :
    (annotateStoredTable
      [⟨0, "Diabetes", "C0011849", ["T047"], ["Disease"], "Affirmed"⟩,
       ⟨0, "Diabetes", "C0011849", ["T047"], ["Disease"], "Affirmed"⟩]).length = 2 ∧
    ((annotateStoredTable
      [⟨0, "Diabetes", "C0011849", ["T047"], ["Disease"], "Affirmed"⟩,
       ⟨0, "Diabetes", "C0011849", ["T047"], ["Disease"], "Affirmed"⟩]).filter
        (fun e => decide (e.cui = "C0011849") && decide (e.row_nr = 0) &&
          decide (e.meta_anns = "Affirmed"))).length = 2 ∧
    (dropDuplicatesCuiRowStatus
      [⟨0, "Diabetes", "C0011849", ["T047"], ["Disease"], "Affirmed"⟩,
       ⟨0, "Diabetes", "C0011849", ["T047"], ["Disease"], "Affirmed"⟩]).length = 1 := by
  decide

/-- C9: the claim says an unknown concept name always fails with the
entity-not-found error, with or without a fuzzy suggestion.  When the
fuzzy matcher finds no candidate with score at least 50 it returns `None`,
and the source's tuple unpacking of that `None` raises `TypeError`
instead; when a suggestion exists the entity-not-found error does carry
it. -/
theorem c9_no_fuzzy_match_raises_type_error :
    _check_valid_name (fun _ _ => none) ["Diabetes"] ["zzz"]
      = .error (.typeError "cannot unpack non-iterable NoneType object") ∧
    _check_valid_name (fun _ _ => some ("Diabetes", 90)) ["Diabetes"] ["Diabtes"]
      = .error (.entitiyNotFoundError
          "Did not find 'Diabtes' in MedCAT's extracted entities. Do you mean Diabetes?") := by
  constructor <;> rfl

/-- C3 (counterexample): at group names ["a","b"], explicit subset ["a"],
reference "rest" (canonical order ["a"], so group-count 1) and
percentages requested, the returned `names` row has 2 entries while the
`scores` row has 1 entry: the five arrays are not all
[feature-count × group-count] as the claim states. -/
theorem c3_counterexample_shapes_disagree :
    _evaluate_categorical_features (fun _ _ => ((0 : ℚ), 0))
        ⟨fun _ => ["a", "b"], ["f"], fun _ => ["x", "y"]⟩ "grouping"
        ["a", "b"] (.seq [GId.str "a"]) "rest" "g-test" true
      = .ok ⟨[["f", "f"]], [[0]], [[0]], [[1, 1]], [[1, 1]]⟩ ∧
    _get_groups_order (.seq [GId.str "a"]) ["a", "b"] "rest"
      = .ok [GId.str "a"] ∧
    (([["f", "f"]] : List (List String)).getD 0 []).length = 2 ∧
    (([[(0 : ℚ)]] : List (List ℚ)).getD 0 []).length = 1 ∧
    [GId.str "a"].length = 1 ∧ (2 : Nat) ≠ 1 :=
  ⟨rfl, rfl, rfl, rfl, rfl, by decide⟩

/-- C3 (amended): with percentages requested, the five arrays have one row
per kept feature; the `scores` and `pvals` rows have one entry per known
group kept in the canonical order, while the `names`, `logfoldchanges`
and `pts` rows have one entry per known group; hence all five are
[feature-count × group-count] when the canonical order is exactly the
known-group list (e.g. groups="all"). -/
theorem c3_amended_array_shapes (chi2 : ℚ → List (String × Bool) → ℚ × ℚ)
    (adata : AData) (groupby : String) (group_names : List String)
    (groups : GroupsParam) (reference method : String) (lambda_ : ℚ)
    (go : List GId) (r : CatEvalResult)
    (hl : tests_to_lambdas method = some lambda_)
    (hgo : _get_groups_order groups group_names reference = .ok go)
    (h : _evaluate_categorical_features chi2 adata groupby group_names
      groups reference method true = .ok r) :
    (r.names.length = (keptFeatures adata groupby).length ∧
     r.scores.length = (keptFeatures adata groupby).length ∧
     r.pvals.length = (keptFeatures adata groupby).length ∧
     r.logfoldchanges.length = (keptFeatures adata groupby).length ∧
     r.pts.length = (keptFeatures adata groupby).length) ∧
    (∀ row ∈ r.names, row.length = group_names.length) ∧
    (∀ row ∈ r.scores, row.length = (testedGroups group_names go).length) ∧
    (∀ row ∈ r.pvals, row.length = (testedGroups group_names go).length) ∧
    (∀ row ∈ r.logfoldchanges, row.length = group_names.length) ∧
    (∀ row ∈ r.pts, row.length = group_names.length) ∧
    (go = group_names.map GId.str →
      (testedGroups group_names go).length = go.length ∧
      group_names.length = go.length) := by
  rw [evaluate_ok_char chi2 adata groupby group_names groups reference
    method true lambda_ go hl hgo] at h
  injection h with h2
  subst h2
  refine ⟨⟨by simp, by simp, by simp, by simp, by simp⟩, ?_, ?_, ?_, ?_, ?_, ?_⟩
  · intro row hrow
    rcases List.mem_map.mp hrow with ⟨f, _, rfl⟩
    exact List.length_replicate _ _
  · intro row hrow
    rcases List.mem_map.mp hrow with ⟨f, _, rfl⟩
    exact List.length_map _ _
  · intro row hrow
    rcases List.mem_map.mp hrow with ⟨f, _, rfl⟩
    exact List.length_map _ _
  · intro row hrow
    rcases List.mem_map.mp hrow with ⟨f, _, rfl⟩
    exact List.length_replicate _ _
  · intro row hrow
    rcases List.mem_map.mp hrow with ⟨f, _, rfl⟩
    exact List.length_replicate _ _
  · intro hall
    have hfull : testedGroups group_names go = group_names := by
      apply List.filter_eq_self.mpr
      intro g hg
      subst hall
      simpa using List.mem_map_of_mem GId.str hg
    constructor
    · rw [hfull, hall, List.length_map]
    · rw [hall, List.length_map]

/-- Witness for C3 (amended) at a concrete input with groups="all". -/
theorem c3_amended_array_shapes_witness :
    (([["f", "f"]] : List (List String)).length
        = (keptFeatures ⟨fun _ => ["a", "b"], ["f"], fun _ => ["x", "y"]⟩
            "grouping").length ∧
      ([[(0 : ℚ), 0]] : List (List ℚ)).length
        = (keptFeatures ⟨fun _ => ["a", "b"], ["f"], fun _ => ["x", "y"]⟩
            "grouping").length ∧
      ([[(0 : ℚ), 0]] : List (List ℚ)).length
        = (keptFeatures ⟨fun _ => ["a", "b"], ["f"], fun _ => ["x", "y"]⟩
            "grouping").length ∧
      ([[(1 : ℚ), 1]] : List (List ℚ)).length
        = (keptFeatures ⟨fun _ => ["a", "b"], ["f"], fun _ => ["x", "y"]⟩
            "grouping").length ∧
      ([[(1 : ℚ), 1]] : List (List ℚ)).length
        = (keptFeatures ⟨fun _ => ["a", "b"], ["f"], fun _ => ["x", "y"]⟩
            "grouping").length) ∧
    (∀ row ∈ ([["f", "f"]] : List (List String)),
      row.length = (["a", "b"] : List String).length) ∧
    (∀ row ∈ ([[(0 : ℚ), 0]] : List (List ℚ)),
      row.length = (testedGroups ["a", "b"]
        [GId.str "a", GId.str "b"]).length) ∧
    (∀ row ∈ ([[(0 : ℚ), 0]] : List (List ℚ)),
      row.length = (testedGroups ["a", "b"]
        [GId.str "a", GId.str "b"]).length) ∧
    (∀ row ∈ ([[(1 : ℚ), 1]] : List (List ℚ)),
      row.length = (["a", "b"] : List String).length) ∧
    (∀ row ∈ ([[(1 : ℚ), 1]] : List (List ℚ)),
      row.length = (["a", "b"] : List String).length) ∧
    ([GId.str "a", GId.str "b"] = (["a", "b"] : List String).map GId.str →
      (testedGroups ["a", "b"] [GId.str "a", GId.str "b"]).length
          = [GId.str "a", GId.str "b"].length ∧
      (["a", "b"] : List String).length = [GId.str "a", GId.str "b"].length) :=
  c3_amended_array_shapes (fun _ _ => ((0 : ℚ), 0))
    ⟨fun _ => ["a", "b"], ["f"], fun _ => ["x", "y"]⟩ "grouping" ["a", "b"]
    (.str "all") "rest" "g-test" 0 [GId.str "a", GId.str "b"]
    ⟨[["f", "f"]], [[0, 0]], [[0, 0]], [[1, 1]], [[1, 1]]⟩ rfl rfl rfl

/-- C4 (counterexample): at known groups ["A","B"] with requested subset
["B","A"] and reference "rest" (canonical order ["B","A"]), the source's
loop runs in known-group order, so the first scores column belongs to
group "A" while the canonical order's first group is "B": the computed
scores row [[0,1]] differs from the row the canonical order would give,
[[1,0]]. -/
theorem c4_counterexample_column_order :
    _get_groups_order (.seq [GId.str "B", GId.str "A"]) ["A", "B"] "rest"
      = .ok [GId.str "B", GId.str "A"] ∧
    _evaluate_categorical_features
        (fun _ pairs =>
          ((if crosstabCount pairs "x" true = 0 then (0 : ℚ) else 1), 0))
        ⟨fun _ => ["A", "B"], ["f"], fun _ => ["x", "y"]⟩ "grouping"
        ["A", "B"] (.seq [GId.str "B", GId.str "A"]) "rest" "g-test" false
      = .ok ⟨[["f", "f"]], [[0, 1]], [[0, 0]], [[1, 1]], []⟩ ∧
    [GId.str "B", GId.str "A"].map (fun gid =>
      (perGroupStat
        (fun _ pairs =>
          ((if crosstabCount pairs "x" true = 0 then (0 : ℚ) else 1), 0))
        0 ["x", "y"] ["A", "B"] "rest" [GId.str "B", GId.str "A"]
        gid.toStr).1) = [1, 0] ∧
    ([[(0 : ℚ), 1]] : List (List ℚ)) ≠ [[1, 0]] :=
  ⟨rfl, rfl, rfl, by decide⟩

/-- C4 (amended): the statistic and p-value columns follow the source's
iteration order — the known-group order filtered to the canonical set —
not the canonical order itself: the i-th column of `scores` and `pvals`
corresponds to the i-th element of `testedGroups group_names go`. -/
theorem c4_amended_columns_follow_known_order
    (chi2 : ℚ → List (String × Bool) → ℚ × ℚ)
    (adata : AData) (groupby : String) (group_names : List String)
    (groups : GroupsParam) (reference method : String) (pts : Bool)
    (lambda_ : ℚ) (go : List GId) (r : CatEvalResult)
    (hl : tests_to_lambdas method = some lambda_)
    (hgo : _get_groups_order groups group_names reference = .ok go)
    (h : _evaluate_categorical_features chi2 adata groupby group_names
      groups reference method pts = .ok r) :
    r.scores = (keptFeatures adata groupby).map (fun f =>
      (testedGroups group_names go).map (fun g =>
        (perGroupStat chi2 lambda_ (adata.X f) (adata.obs groupby)
          reference go g).1)) ∧
    r.pvals = (keptFeatures adata groupby).map (fun f =>
      (testedGroups group_names go).map (fun g =>
        (perGroupStat chi2 lambda_ (adata.X f) (adata.obs groupby)
          reference go g).2)) := by
  rw [evaluate_ok_char chi2 adata groupby group_names groups reference
    method pts lambda_ go hl hgo] at h
  injection h with h2
  subst h2
  exact ⟨rfl, rfl⟩

/-- Witness for C4 (amended) at the C4 input. -/
theorem c4_amended_columns_follow_known_order_witness :
    ([[(0 : ℚ), 1]] : List (List ℚ))
      = (keptFeatures ⟨fun _ => ["A", "B"], ["f"], fun _ => ["x", "y"]⟩
          "grouping").map (fun f =>
        (testedGroups ["A", "B"] [GId.str "B", GId.str "A"]).map (fun g =>
          (perGroupStat
            (fun _ pairs =>
              ((if crosstabCount pairs "x" true = 0 then (0 : ℚ) else 1), 0))
            0 ((⟨fun _ => ["A", "B"], ["f"], fun _ => ["x", "y"]⟩ : AData).X f)
            ((⟨fun _ => ["A", "B"], ["f"], fun _ => ["x", "y"]⟩ :
              AData).obs "grouping")
            "rest" [GId.str "B", GId.str "A"] g).1)) ∧
    ([[(0 : ℚ), 0]] : List (List ℚ))
      = (keptFeatures ⟨fun _ => ["A", "B"], ["f"], fun _ => ["x", "y"]⟩
          "grouping").map (fun f =>
        (testedGroups ["A", "B"] [GId.str "B", GId.str "A"]).map (fun g =>
          (perGroupStat
            (fun _ pairs =>
              ((if crosstabCount pairs "x" true = 0 then (0 : ℚ) else 1), 0))
            0 ((⟨fun _ => ["A", "B"], ["f"], fun _ => ["x", "y"]⟩ : AData).X f)
            ((⟨fun _ => ["A", "B"], ["f"], fun _ => ["x", "y"]⟩ :
              AData).obs "grouping")
            "rest" [GId.str "B", GId.str "A"] g).2)) :=
  c4_amended_columns_follow_known_order
    (fun _ pairs =>
      ((if crosstabCount pairs "x" true = 0 then (0 : ℚ) else 1), 0))
    ⟨fun _ => ["A", "B"], ["f"], fun _ => ["x", "y"]⟩ "grouping" ["A", "B"]
    (.seq [GId.str "B", GId.str "A"]) "rest" "g-test" false 0
    [GId.str "B", GId.str "A"]
    ⟨[["f", "f"]], [[0, 1]], [[0, 0]], [[1, 1]], []⟩ rfl rfl rfl

/-- Witness for C5 at a concrete input. -/
theorem c5_merge_aligns_columns_by_name_witness :
    ∃ t1 t2,
      saveField none (some [[(1 : ℚ), 2]]) ["A", "B"] = .ok (some t1) ∧
      saveField (some t1) (some [[(3 : ℚ), 4]]) ["B", "A"] = .ok (some t2) ∧
      lookupCol t2 "A" = arrayCol [[(1 : ℚ), 2]] 0 ++ arrayCol [[(3 : ℚ), 4]] 1 ∧
      lookupCol t2 "B" = arrayCol [[(1 : ℚ), 2]] 1 ++ arrayCol [[(3 : ℚ), 4]] 0 :=
  c5_merge_aligns_columns_by_name [[(1 : ℚ), 2]] [[(3 : ℚ), 4]]
    (by decide) (by decide)

end Ehrapy
